import Mathlib

/-!
Verification of the flow2api credential-pool scheduler and generation
orchestrator.  The Go source is shallowly embedded: Go maps become
functions with a default value, `time.Time` instants become `Int`
(seconds), nullable pointers become `Option`, and stateful methods
become pure state transformers.  Floating-point scheduler scores are
embedded with exact rational arithmetic (`Rat`).
-/

namespace Flow2API

/-- Update a map-like function at one key (Go `m[k] = v`). -/
def setAt {α : Type} (f : Int → α) (id : Int) (v : α) : Int → α :=
  fun j => if j = id then v else f j

theorem setAt_self {α : Type} (f : Int → α) (id : Int) (v : α) :
    setAt f id v id = v := by
  simp [setAt]

theorem setAt_ne {α : Type} (f : Int → α) (id j : Int) (v : α) (h : j ≠ id) :
    setAt f id v j = f j := by
  simp [setAt, h]

/-- models.Token (fields relevant to the scheduler, pool and slot manager). -/
structure Token where
  id : Int
  ST : String
  AT : String
  atExpires : Option Int
  isActive : Bool
  lastUsedAt : Option Int
  credits : Int
  userPaygateTier : String
  currentProjectID : String
  imageEnabled : Bool
  videoEnabled : Bool
  imageConcurrency : Int
  videoConcurrency : Int
  banReason : Option String
  bannedAt : Option Int
deriving DecidableEq, Repr

/-- The two media kinds whose in-flight slots are tracked. -/
inductive MediaKind where
  | image
  | video
deriving DecidableEq, Repr

/-- services.ConcurrencyManager: per-credential in-flight slot counters and
configured limit pairs.  Go maps with zero / absent defaults become total
functions with `Option` for the limit table. -/
structure ConcurrencyManager where
  imageSlots : Int → Int
  videoSlots : Int → Int
  limits : Int → Option (Int × Int)

/-- services.NewConcurrencyManager: empty maps. -/
def NewConcurrencyManager : ConcurrencyManager :=
  { imageSlots := fun _ => 0
    videoSlots := fun _ => 0
    limits := fun _ => none }

/-- ConcurrencyManager.Initialize: seed the limit table from a token list. -/
def ConcurrencyManager.InitLimits (cm : ConcurrencyManager) (tokens : List Token) :
    ConcurrencyManager :=
  tokens.foldl
    (fun c t => { c with limits := setAt c.limits t.id (some (t.imageConcurrency, t.videoConcurrency)) })
    cm

/-- ConcurrencyManager.UpdateTokenLimits: replace the stored limit pair. -/
def ConcurrencyManager.UpdateTokenLimits (cm : ConcurrencyManager)
    (tokenID imageLimit videoLimit : Int) : ConcurrencyManager :=
  { cm with limits := setAt cm.limits tokenID (some (imageLimit, videoLimit)) }

/-- ConcurrencyManager.CanAcquireImage. -/
def ConcurrencyManager.CanAcquireImage (cm : ConcurrencyManager) (tokenID : Int) : Bool :=
  match cm.limits tokenID with
  | none => true
  | some limit =>
    if limit.1 < 0 then true
    else decide (cm.imageSlots tokenID < limit.1)

/-- ConcurrencyManager.CanAcquireVideo. -/
def ConcurrencyManager.CanAcquireVideo (cm : ConcurrencyManager) (tokenID : Int) : Bool :=
  match cm.limits tokenID with
  | none => true
  | some limit =>
    if limit.2 < 0 then true
    else decide (cm.videoSlots tokenID < limit.2)

/-- ConcurrencyManager.AcquireImage: check-and-increment under the lock. -/
def ConcurrencyManager.AcquireImage (cm : ConcurrencyManager) (tokenID : Int) :
    Bool × ConcurrencyManager :=
  let bumped : ConcurrencyManager :=
    { cm with imageSlots := setAt cm.imageSlots tokenID (cm.imageSlots tokenID + 1) }
  match cm.limits tokenID with
  | none => (true, bumped)
  | some limit =>
    if limit.1 < 0 then (true, bumped)
    else if limit.1 ≤ cm.imageSlots tokenID then (false, cm)
    else (true, bumped)

/-- ConcurrencyManager.ReleaseImage: decrement floored at 0. -/
def ConcurrencyManager.ReleaseImage (cm : ConcurrencyManager) (tokenID : Int) :
    ConcurrencyManager :=
  if 0 < cm.imageSlots tokenID then
    { cm with imageSlots := setAt cm.imageSlots tokenID (cm.imageSlots tokenID - 1) }
  else cm

/-- ConcurrencyManager.AcquireVideo: check-and-increment under the lock. -/
def ConcurrencyManager.AcquireVideo (cm : ConcurrencyManager) (tokenID : Int) :
    Bool × ConcurrencyManager :=
  let bumped : ConcurrencyManager :=
    { cm with videoSlots := setAt cm.videoSlots tokenID (cm.videoSlots tokenID + 1) }
  match cm.limits tokenID with
  | none => (true, bumped)
  | some limit =>
    if limit.2 < 0 then (true, bumped)
    else if limit.2 ≤ cm.videoSlots tokenID then (false, cm)
    else (true, bumped)

/-- ConcurrencyManager.ReleaseVideo: decrement floored at 0. -/
def ConcurrencyManager.ReleaseVideo (cm : ConcurrencyManager) (tokenID : Int) :
    ConcurrencyManager :=
  if 0 < cm.videoSlots tokenID then
    { cm with videoSlots := setAt cm.videoSlots tokenID (cm.videoSlots tokenID - 1) }
  else cm

/-- The slot counter of the given kind. -/
def ConcurrencyManager.slotsOf (cm : ConcurrencyManager) (k : MediaKind) (id : Int) : Int :=
  match k with
  | .image => cm.imageSlots id
  | .video => cm.videoSlots id

/-- The configured limit of the given kind, when the credential is registered. -/
def ConcurrencyManager.limitFor (cm : ConcurrencyManager) (k : MediaKind) (id : Int) :
    Option Int :=
  match cm.limits id with
  | none => none
  | some p => some (match k with | .image => p.1 | .video => p.2)

/-- Kind-dispatching wrapper over AcquireImage / AcquireVideo. -/
def ConcurrencyManager.acquire (cm : ConcurrencyManager) (k : MediaKind) (id : Int) :
    Bool × ConcurrencyManager :=
  match k with
  | .image => cm.AcquireImage id
  | .video => cm.AcquireVideo id

/-- Kind-dispatching wrapper over CanAcquireImage / CanAcquireVideo. -/
def ConcurrencyManager.canAcquire (cm : ConcurrencyManager) (k : MediaKind) (id : Int) : Bool :=
  match k with
  | .image => cm.CanAcquireImage id
  | .video => cm.CanAcquireVideo id

/-- Kind-dispatching wrapper over ReleaseImage / ReleaseVideo. -/
def ConcurrencyManager.release (cm : ConcurrencyManager) (k : MediaKind) (id : Int) :
    ConcurrencyManager :=
  match k with
  | .image => cm.ReleaseImage id
  | .video => cm.ReleaseVideo id

/-- Iterated acquire; returns the final state and the number of successes. -/
def ConcurrencyManager.acquireRepeat (cm : ConcurrencyManager) (k : MediaKind) (id : Int) :
    Nat → ConcurrencyManager × Nat
  | 0 => (cm, 0)
  | n + 1 =>
    let p := cm.acquireRepeat k id n
    let q := p.1.acquire k id
    (q.2, p.2 + (if q.1 then 1 else 0))

/-- The public operations of the slot manager, for stating reachability. -/
inductive SlotOp where
  | initLimits (tokens : List Token)
  | acquireOp (k : MediaKind) (id : Int)
  | releaseOp (k : MediaKind) (id : Int)
  | updateLimitsOp (id imageLimit videoLimit : Int)

/-- Apply one public operation. -/
def applySlotOp (cm : ConcurrencyManager) : SlotOp → ConcurrencyManager
  | .initLimits ts => cm.InitLimits ts
  | .acquireOp k id => (cm.acquire k id).2
  | .releaseOp k id => cm.release k id
  | .updateLimitsOp id il vl => cm.UpdateTokenLimits id il vl

/-- Run a sequence of public operations from the freshly constructed manager. -/
def runSlotOps (ops : List SlotOp) : ConcurrencyManager :=
  ops.foldl applySlotOp NewConcurrencyManager

theorem ConcurrencyManager.acquire_limits (cm : ConcurrencyManager) (k : MediaKind) (id : Int) :
    ((cm.acquire k id).2).limits = cm.limits := by
  cases k <;>
    simp only [ConcurrencyManager.acquire, ConcurrencyManager.AcquireImage,
      ConcurrencyManager.AcquireVideo] <;>
    rcases h : cm.limits id with _ | p <;> simp only [h] <;> split <;> (try split) <;> rfl

theorem ConcurrencyManager.release_limits (cm : ConcurrencyManager) (k : MediaKind) (id : Int) :
    (cm.release k id).limits = cm.limits := by
  cases k <;>
    simp only [ConcurrencyManager.release, ConcurrencyManager.ReleaseImage,
      ConcurrencyManager.ReleaseVideo] <;> split <;> rfl

theorem ConcurrencyManager.acquire_limitFor (cm : ConcurrencyManager) (k k' : MediaKind)
    (id id' : Int) : ((cm.acquire k id).2).limitFor k' id' = cm.limitFor k' id' := by
  simp [ConcurrencyManager.limitFor, cm.acquire_limits k id]

theorem ConcurrencyManager.release_limitFor (cm : ConcurrencyManager) (k k' : MediaKind)
    (id id' : Int) : (cm.release k id).limitFor k' id' = cm.limitFor k' id' := by
  simp [ConcurrencyManager.limitFor, cm.release_limits k id]

theorem ConcurrencyManager.canAcquire_iff (cm : ConcurrencyManager) (k : MediaKind) (id : Int) :
    cm.canAcquire k id =
      (match cm.limitFor k id with
       | none => true
       | some L => if L < 0 then true else decide (cm.slotsOf k id < L)) := by
  cases k <;>
    simp only [ConcurrencyManager.canAcquire, ConcurrencyManager.CanAcquireImage,
      ConcurrencyManager.CanAcquireVideo, ConcurrencyManager.limitFor,
      ConcurrencyManager.slotsOf] <;>
    rcases h : cm.limits id with _ | p <;> simp [h]

theorem ConcurrencyManager.acquire_fst (cm : ConcurrencyManager) (k : MediaKind) (id : Int) :
    (cm.acquire k id).1 = cm.canAcquire k id := by
  cases k <;>
    simp only [ConcurrencyManager.acquire, ConcurrencyManager.AcquireImage,
      ConcurrencyManager.AcquireVideo, ConcurrencyManager.canAcquire,
      ConcurrencyManager.CanAcquireImage, ConcurrencyManager.CanAcquireVideo] <;>
    rcases h : cm.limits id with _ | p <;> simp only [h] <;> split <;> try rfl
  case image.some.isFalse hneg =>
    by_cases hle : p.1 ≤ cm.imageSlots id <;> simp [hle] <;> omega
  case video.some.isFalse hneg =>
    by_cases hle : p.2 ≤ cm.videoSlots id <;> simp [hle] <;> omega

theorem ConcurrencyManager.acquire_denied (cm : ConcurrencyManager) (k : MediaKind) (id : Int)
    (h : cm.canAcquire k id = false) : cm.acquire k id = (false, cm) := by
  cases k
  case image =>
    simp only [ConcurrencyManager.canAcquire, ConcurrencyManager.CanAcquireImage] at h
    simp only [ConcurrencyManager.acquire, ConcurrencyManager.AcquireImage]
    rcases hl : cm.limits id with _ | p
    · rw [hl] at h; simp at h
    · rw [hl] at h
      by_cases h1 : p.1 < 0
      · simp [h1] at h
      · simp only [h1, if_false] at h
        have h2 : p.1 ≤ cm.imageSlots id := by
          simpa using of_decide_eq_false h
        simp [h1, h2]
  case video =>
    simp only [ConcurrencyManager.canAcquire, ConcurrencyManager.CanAcquireVideo] at h
    simp only [ConcurrencyManager.acquire, ConcurrencyManager.AcquireVideo]
    rcases hl : cm.limits id with _ | p
    · rw [hl] at h; simp at h
    · rw [hl] at h
      by_cases h1 : p.2 < 0
      · simp [h1] at h
      · simp only [h1, if_false] at h
        have h2 : p.2 ≤ cm.videoSlots id := by
          simpa using of_decide_eq_false h
        simp [h1, h2]

theorem ConcurrencyManager.acquire_slotsOf (cm : ConcurrencyManager) (k : MediaKind) (id : Int) :
    ((cm.acquire k id).2).slotsOf k id =
      (if cm.canAcquire k id then cm.slotsOf k id + 1 else cm.slotsOf k id) := by
  cases k
  case image =>
    simp only [ConcurrencyManager.acquire, ConcurrencyManager.AcquireImage,
      ConcurrencyManager.canAcquire, ConcurrencyManager.CanAcquireImage,
      ConcurrencyManager.slotsOf]
    rcases hl : cm.limits id with _ | p
    · simp [setAt_self]
    · by_cases h1 : p.1 < 0
      · simp [h1, setAt_self]
      · by_cases h2 : p.1 ≤ cm.imageSlots id
        · have h3 : ¬ cm.imageSlots id < p.1 := by omega
          simp [h1, h2, h3]
        · have h3 : cm.imageSlots id < p.1 := by omega
          simp [h1, h2, h3, setAt_self]
  case video =>
    simp only [ConcurrencyManager.acquire, ConcurrencyManager.AcquireVideo,
      ConcurrencyManager.canAcquire, ConcurrencyManager.CanAcquireVideo,
      ConcurrencyManager.slotsOf]
    rcases hl : cm.limits id with _ | p
    · simp [setAt_self]
    · by_cases h1 : p.2 < 0
      · simp [h1, setAt_self]
      · by_cases h2 : p.2 ≤ cm.videoSlots id
        · have h3 : ¬ cm.videoSlots id < p.2 := by omega
          simp [h1, h2, h3]
        · have h3 : cm.videoSlots id < p.2 := by omega
          simp [h1, h2, h3, setAt_self]

theorem ConcurrencyManager.release_slotsOf (cm : ConcurrencyManager) (k : MediaKind) (id : Int) :
    (cm.release k id).slotsOf k id =
      (if 0 < cm.slotsOf k id then cm.slotsOf k id - 1 else cm.slotsOf k id) := by
  cases k <;>
    simp only [ConcurrencyManager.release, ConcurrencyManager.ReleaseImage,
      ConcurrencyManager.ReleaseVideo, ConcurrencyManager.slotsOf] <;>
    split <;> simp_all [setAt_self]

theorem setAt_inc_cases (f : Int → Int) (id id' : Int) :
    setAt f id (f id + 1) id' = f id' ∨ setAt f id (f id + 1) id' = f id' + 1 := by
  by_cases h : id' = id
  · subst h; right; exact setAt_self ..
  · left; exact setAt_ne _ _ _ _ h

theorem ConcurrencyManager.acquire_slotsOf_cases (cm : ConcurrencyManager) (k k' : MediaKind)
    (id id' : Int) :
    ((cm.acquire k id).2).slotsOf k' id' = cm.slotsOf k' id' ∨
      ((cm.acquire k id).2).slotsOf k' id' = cm.slotsOf k' id' + 1 := by
  cases k <;> cases k' <;>
    simp only [ConcurrencyManager.acquire, ConcurrencyManager.AcquireImage,
      ConcurrencyManager.AcquireVideo, ConcurrencyManager.slotsOf] <;>
    rcases hl : cm.limits id with _ | p <;> simp only [hl]
  case image.image.none => exact setAt_inc_cases ..
  case image.image.some =>
    split
    · exact setAt_inc_cases ..
    · split
      · left; rfl
      · exact setAt_inc_cases ..
  case image.video.none => exact Or.inl trivial
  case image.video.some =>
    split
    · left; rfl
    · split
      · left; rfl
      · left; rfl
  case video.image.none => exact Or.inl trivial
  case video.image.some =>
    split
    · left; rfl
    · split
      · left; rfl
      · left; rfl
  case video.video.none => exact setAt_inc_cases ..
  case video.video.some =>
    split
    · exact setAt_inc_cases ..
    · split
      · left; rfl
      · exact setAt_inc_cases ..

theorem ConcurrencyManager.release_slotsOf_nonneg (cm : ConcurrencyManager) (k k' : MediaKind)
    (id id' : Int) (h : 0 ≤ cm.slotsOf k' id') : 0 ≤ (cm.release k id).slotsOf k' id' := by
  cases k <;> cases k'
  case image.image =>
    simp only [ConcurrencyManager.slotsOf] at h ⊢
    simp only [ConcurrencyManager.release, ConcurrencyManager.ReleaseImage]
    by_cases hpos : 0 < cm.imageSlots id
    · rw [if_pos hpos]
      show 0 ≤ setAt cm.imageSlots id (cm.imageSlots id - 1) id'
      by_cases hid : id' = id
      · subst hid; rw [setAt_self]; omega
      · rw [setAt_ne _ _ _ _ hid]; exact h
    · rw [if_neg hpos]; exact h
  case image.video =>
    simp only [ConcurrencyManager.slotsOf] at h ⊢
    simp only [ConcurrencyManager.release, ConcurrencyManager.ReleaseImage]
    by_cases hpos : 0 < cm.imageSlots id
    · rw [if_pos hpos]; exact h
    · rw [if_neg hpos]; exact h
  case video.image =>
    simp only [ConcurrencyManager.slotsOf] at h ⊢
    simp only [ConcurrencyManager.release, ConcurrencyManager.ReleaseVideo]
    by_cases hpos : 0 < cm.videoSlots id
    · rw [if_pos hpos]; exact h
    · rw [if_neg hpos]; exact h
  case video.video =>
    simp only [ConcurrencyManager.slotsOf] at h ⊢
    simp only [ConcurrencyManager.release, ConcurrencyManager.ReleaseVideo]
    by_cases hpos : 0 < cm.videoSlots id
    · rw [if_pos hpos]
      show 0 ≤ setAt cm.videoSlots id (cm.videoSlots id - 1) id'
      by_cases hid : id' = id
      · subst hid; rw [setAt_self]; omega
      · rw [setAt_ne _ _ _ _ hid]; exact h
    · rw [if_neg hpos]; exact h

theorem ConcurrencyManager.initLimits_slotsOf :
    ∀ (ts : List Token) (cm : ConcurrencyManager) (k : MediaKind) (id : Int),
      (cm.InitLimits ts).slotsOf k id = cm.slotsOf k id := by
  intro ts
  induction ts with
  | nil => intro cm k id; rfl
  | cons t ts ih =>
    intro cm k id
    simp only [ConcurrencyManager.InitLimits, List.foldl_cons] at *
    rw [ih]
    cases k <;> rfl

theorem ConcurrencyManager.updateLimits_slotsOf (cm : ConcurrencyManager)
    (tokenID il vl : Int) (k : MediaKind) (id : Int) :
    (cm.UpdateTokenLimits tokenID il vl).slotsOf k id = cm.slotsOf k id := by
  cases k <;> rfl

/-- The reachable-state invariant of the slot table: all counters nonnegative. -/
def slotsNonneg (cm : ConcurrencyManager) : Prop :=
  ∀ (k : MediaKind) (id : Int), 0 ≤ cm.slotsOf k id

theorem applySlotOp_nonneg (cm : ConcurrencyManager) (op : SlotOp) (h : slotsNonneg cm) :
    slotsNonneg (applySlotOp cm op) := by
  intro k id
  cases op with
  | initLimits ts => rw [applySlotOp, ConcurrencyManager.initLimits_slotsOf]; exact h k id
  | acquireOp k0 id0 =>
    rcases cm.acquire_slotsOf_cases k0 k id0 id with hc | hc <;>
      · rw [applySlotOp, hc]; have := h k id; omega
  | releaseOp k0 id0 => exact cm.release_slotsOf_nonneg k0 k id0 id (h k id)
  | updateLimitsOp id0 il vl =>
    rw [applySlotOp, ConcurrencyManager.updateLimits_slotsOf]; exact h k id

theorem runSlotOps_nonneg (ops : List SlotOp) : slotsNonneg (runSlotOps ops) := by
  have hgen : ∀ (l : List SlotOp) (cm : ConcurrencyManager), slotsNonneg cm →
      slotsNonneg (l.foldl applySlotOp cm) := by
    intro l
    induction l with
    | nil => intro cm h; exact h
    | cons op l ih => intro cm h; exact ih _ (applySlotOp_nonneg cm op h)
  exact hgen ops NewConcurrencyManager (fun k id => by cases k <;> exact le_refl 0)

theorem ConcurrencyManager.acquireRepeat_limits (cm : ConcurrencyManager) (k : MediaKind)
    (id : Int) : ∀ n, ((cm.acquireRepeat k id n).1).limits = cm.limits := by
  intro n
  induction n with
  | zero => rfl
  | succ n ih =>
    simp only [ConcurrencyManager.acquireRepeat]
    rw [ConcurrencyManager.acquire_limits]
    exact ih

/-- From a zero counter under a fixed nonnegative limit, `n` iterated acquires
drive the counter to `min n L` and succeed exactly `min n L` times. -/
theorem ConcurrencyManager.acquireRepeat_spec (cm : ConcurrencyManager) (k : MediaKind)
    (id : Int) (L : Int) (hL : cm.limitFor k id = some L) (h0 : 0 ≤ L)
    (hz : cm.slotsOf k id = 0) :
    ∀ n : Nat, ((cm.acquireRepeat k id n).1).slotsOf k id = min (n : Int) L ∧
      ((cm.acquireRepeat k id n).2 : Int) = min (n : Int) L := by
  intro n
  induction n with
  | zero => simp [ConcurrencyManager.acquireRepeat, hz, h0]
  | succ n ih =>
    obtain ⟨hslots, hsucc⟩ := ih
    have hlim : ((cm.acquireRepeat k id n).1).limitFor k id = some L := by
      rw [ConcurrencyManager.limitFor, ConcurrencyManager.acquireRepeat_limits]
      rw [ConcurrencyManager.limitFor] at hL
      exact hL
    have hcan : (((cm.acquireRepeat k id n).1).canAcquire k id = true) ↔ ((n : Int) < L) := by
      rw [ConcurrencyManager.canAcquire_iff, hlim]
      show (if L < 0 then true
        else decide (((cm.acquireRepeat k id n).1).slotsOf k id < L)) = true ↔ _
      have hneg : ¬ L < 0 := by omega
      rw [if_neg hneg, hslots]
      simp only [decide_eq_true_eq]
      omega
    constructor
    · show ((((cm.acquireRepeat k id n).1).acquire k id).2).slotsOf k id =
        min ((n + 1 : Nat) : Int) L
      rw [ConcurrencyManager.acquire_slotsOf]
      by_cases hn : (n : Int) < L
      · rw [if_pos (hcan.mpr hn), hslots]
        push_cast
        omega
      · rw [if_neg (fun hc => hn (hcan.mp hc)), hslots]
        push_cast
        omega
    · show (((cm.acquireRepeat k id n).2 +
          if (((cm.acquireRepeat k id n).1).acquire k id).1 then 1 else 0 : Nat) : Int) =
        min ((n + 1 : Nat) : Int) L
      rw [ConcurrencyManager.acquire_fst]
      by_cases hn : (n : Int) < L
      · rw [if_pos (hcan.mpr hn)]
        push_cast
        push_cast at hsucc
        omega
      · rw [if_neg (fun hc => hn (hcan.mp hc))]
        push_cast
        push_cast at hsucc
        omega

theorem ConcurrencyManager.canAcquire_some (cm : ConcurrencyManager) (k : MediaKind)
    (id L : Int) (h : cm.limitFor k id = some L) :
    cm.canAcquire k id = (if L < 0 then true else decide (cm.slotsOf k id < L)) := by
  rw [ConcurrencyManager.canAcquire_iff, h]

theorem ConcurrencyManager.canAcquire_none (cm : ConcurrencyManager) (k : MediaKind)
    (id : Int) (h : cm.limitFor k id = none) : cm.canAcquire k id = true := by
  rw [ConcurrencyManager.canAcquire_iff, h]

/-- Claim C1: for every credential and media kind, acquire atomically
checks-and-increments the slot counter: with a stored limit L ≥ 0 and counter
≥ L it returns false leaving the state unchanged; with counter < L or L < 0 it
returns true and increments; from a zero counter exactly L consecutive
acquires succeed, the next fails, and succeeds again after a release; a
negative limit always grants. -/
theorem claim_C1_acquire_check_and_increment :
    (∀ (cm : ConcurrencyManager) (k : MediaKind) (id L : Int),
        cm.limitFor k id = some L → 0 ≤ L → L ≤ cm.slotsOf k id →
        cm.acquire k id = (false, cm))
    ∧ (∀ (cm : ConcurrencyManager) (k : MediaKind) (id L : Int),
        cm.limitFor k id = some L → (L < 0 ∨ cm.slotsOf k id < L) →
        (cm.acquire k id).1 = true ∧
          ((cm.acquire k id).2).slotsOf k id = cm.slotsOf k id + 1)
    ∧ (∀ (cm : ConcurrencyManager) (k : MediaKind) (id : Int) (L : Nat),
        cm.limitFor k id = some (L : Int) → cm.slotsOf k id = 0 →
        (∀ n : Nat, n ≤ L → (cm.acquireRepeat k id n).2 = n)
        ∧ (((cm.acquireRepeat k id L).1).acquire k id).1 = false
        ∧ (0 < L →
            ((((cm.acquireRepeat k id L).1).release k id).acquire k id).1 = true))
    ∧ (∀ (cm : ConcurrencyManager) (k : MediaKind) (id L : Int),
        cm.limitFor k id = some L → L < 0 → (cm.acquire k id).1 = true) := by
  refine ⟨?_, ?_, ?_, ?_⟩
  · intro cm k id L hL h0 hs
    apply cm.acquire_denied
    rw [cm.canAcquire_some k id L hL, if_neg (by omega)]
    exact decide_eq_false (by omega)
  · intro cm k id L hL hcase
    have hcan : cm.canAcquire k id = true := by
      rw [cm.canAcquire_some k id L hL]
      rcases hcase with hneg | hlt
      · rw [if_pos hneg]
      · by_cases hneg : L < 0
        · rw [if_pos hneg]
        · rw [if_neg hneg]
          exact decide_eq_true hlt
    refine ⟨by rw [cm.acquire_fst, hcan], ?_⟩
    rw [cm.acquire_slotsOf, if_pos hcan]
  · intro cm k id L hL hz
    have h0 : (0 : Int) ≤ (L : Int) := Int.natCast_nonneg L
    have hspec := cm.acquireRepeat_spec k id (L : Int) hL h0 hz
    have hlimN : ∀ n : Nat, ((cm.acquireRepeat k id n).1).limitFor k id = some (L : Int) := by
      intro n
      rw [ConcurrencyManager.limitFor, ConcurrencyManager.acquireRepeat_limits]
      rw [ConcurrencyManager.limitFor] at hL
      exact hL
    refine ⟨?_, ?_, ?_⟩
    · intro n hn
      have h := (hspec n).2
      have : min ((n : Nat) : Int) (L : Int) = (n : Int) := by
        have : (n : Int) ≤ (L : Int) := by exact_mod_cast hn
        omega
      rw [this] at h
      exact_mod_cast h
    · have hs := (hspec L).1
      have hmin : min ((L : Nat) : Int) (L : Int) = (L : Int) := by omega
      rw [hmin] at hs
      rw [ConcurrencyManager.acquire_fst, (((cm.acquireRepeat k id L).1)).canAcquire_some k id
        (L : Int) (hlimN L), if_neg (by omega), hs]
      exact decide_eq_false (by omega)
    · intro hpos
      have hs := (hspec L).1
      have hmin : min ((L : Nat) : Int) (L : Int) = (L : Int) := by omega
      rw [hmin] at hs
      have hrel : (((cm.acquireRepeat k id L).1).release k id).slotsOf k id = (L : Int) - 1 := by
        rw [ConcurrencyManager.release_slotsOf, hs, if_pos (by exact_mod_cast hpos)]
      have hlim' : (((cm.acquireRepeat k id L).1).release k id).limitFor k id = some (L : Int) := by
        rw [ConcurrencyManager.release_limitFor]
        exact hlimN L
      rw [ConcurrencyManager.acquire_fst, ConcurrencyManager.canAcquire_some _ k id (L : Int)
        hlim', if_neg (by omega), hrel]
      exact decide_eq_true (by omega)
  · intro cm k id L hL hneg
    rw [cm.acquire_fst, cm.canAcquire_some k id L hL, if_pos hneg]

/-- Concrete slot-limit table used by the C1 witness. -/
def c1WitnessCM : ConcurrencyManager :=
  NewConcurrencyManager.UpdateTokenLimits 1 2 (-1)

theorem claim_C1_acquire_check_and_increment_witness :
    ((c1WitnessCM.acquireRepeat MediaKind.image 1 2).2 = 2) ∧
    (((c1WitnessCM.acquireRepeat MediaKind.image 1 2).1).acquire MediaKind.image 1).1 = false ∧
    ((((c1WitnessCM.acquireRepeat MediaKind.image 1 2).1).release MediaKind.image 1).acquire
      MediaKind.image 1).1 = true ∧
    (c1WitnessCM.acquire MediaKind.video 1).1 = true := by
  have h := claim_C1_acquire_check_and_increment
  have h3 := h.2.2.1 c1WitnessCM MediaKind.image 1 2 rfl rfl
  exact ⟨h3.1 2 (by norm_num), h3.2.1, h3.2.2 (by norm_num),
    h.2.2.2 c1WitnessCM MediaKind.video 1 (-1) rfl (by norm_num)⟩

/-- Claim C3 (amended): slot counters stay nonnegative under every operation
sequence and release floors at 0; an acquire never pushes the counter past a
nonnegative stored limit, and a counter at or above the limit denies acquire
(no over-admission); however, updateLimits can replace a limit below the
current counter, so "counter ≤ limit" is not invariant across limit updates
(see the counterexample). -/
theorem claim_C3_slot_invariants_amended :
    (∀ (ops : List SlotOp) (k : MediaKind) (id : Int), 0 ≤ (runSlotOps ops).slotsOf k id)
    ∧ (∀ (cm : ConcurrencyManager) (k : MediaKind) (id : Int),
        (cm.release k id).slotsOf k id =
          if 0 < cm.slotsOf k id then cm.slotsOf k id - 1 else cm.slotsOf k id)
    ∧ (∀ (cm : ConcurrencyManager) (k : MediaKind) (id L : Int),
        cm.limitFor k id = some L → 0 ≤ L → cm.slotsOf k id ≤ L →
        ((cm.acquire k id).2).slotsOf k id ≤ L)
    ∧ (∀ (cm : ConcurrencyManager) (k : MediaKind) (id L : Int),
        cm.limitFor k id = some L → 0 ≤ L → L ≤ cm.slotsOf k id →
        cm.acquire k id = (false, cm)) := by
  refine ⟨?_, ?_, ?_, ?_⟩
  · intro ops k id
    exact runSlotOps_nonneg ops k id
  · intro cm k id
    exact cm.release_slotsOf k id
  · intro cm k id L hL h0 hs
    rw [ConcurrencyManager.acquire_slotsOf]
    by_cases hcan : cm.canAcquire k id = true
    · rw [if_pos hcan]
      rw [cm.canAcquire_some k id L hL, if_neg (by omega)] at hcan
      have := of_decide_eq_true hcan
      omega
    · rw [if_neg hcan]
      exact hs
  · intro cm k id L hL h0 hs
    apply cm.acquire_denied
    rw [cm.canAcquire_some k id L hL, if_neg (by omega)]
    exact decide_eq_false (by omega)

/-- Reachable state refuting the original C3: two acquires on an unregistered
credential, then updateLimits registering limit 1; the counter (2) now exceeds
the nonnegative limit (1). -/
def c3CounterexampleState : ConcurrencyManager :=
  runSlotOps [SlotOp.acquireOp MediaKind.image 7, SlotOp.acquireOp MediaKind.image 7,
    SlotOp.updateLimitsOp 7 1 1]

/-- Claim C3 (counterexample): after the operation sequence acquire, acquire,
updateLimits(1,1) on credential 7, the stored image limit is 1 ≥ 0 while the
image counter is 2 > 1, so the claimed invariant "counter ≤ limit whenever
limit ≥ 0 under every sequence of ... updateLimits calls" fails. -/
theorem claim_C3_counterexample :
    c3CounterexampleState.limitFor MediaKind.image 7 = some 1 ∧
    (0 : Int) ≤ 1 ∧
    c3CounterexampleState.slotsOf MediaKind.image 7 = 2 ∧
    ¬ c3CounterexampleState.slotsOf MediaKind.image 7 ≤ 1 := by
  refine ⟨rfl, by norm_num, rfl, by decide⟩

theorem claim_C3_slot_invariants_amended_witness :
    ((NewConcurrencyManager.UpdateTokenLimits 2 1 1).acquire MediaKind.image 2).2.slotsOf
      MediaKind.image 2 ≤ 1 ∧
    c3CounterexampleState.acquire MediaKind.image 7 = (false, c3CounterexampleState) := by
  have h := claim_C3_slot_invariants_amended
  exact ⟨h.2.2.1 (NewConcurrencyManager.UpdateTokenLimits 2 1 1) MediaKind.image 2 1 rfl
      (by norm_num) (by decide),
    h.2.2.2 c3CounterexampleState MediaKind.image 7 1 rfl (by norm_num) (by decide)⟩

/-- Claim C10: a credential id never registered via initialize or updateLimits
is treated as unlimited: canAcquire is true and acquire always succeeds while
still incrementing the counter, for both kinds and after any number of
preceding acquires. -/
theorem claim_C10_unregistered_unlimited :
    ∀ (cm : ConcurrencyManager) (id : Int), cm.limits id = none →
      (cm.CanAcquireImage id = true ∧ cm.CanAcquireVideo id = true)
      ∧ (∀ k : MediaKind, (cm.acquire k id).1 = true ∧
          ((cm.acquire k id).2).slotsOf k id = cm.slotsOf k id + 1)
      ∧ (∀ (k : MediaKind) (n : Nat), (cm.acquireRepeat k id n).2 = n) := by
  intro cm id hm
  have hlim : ∀ k, cm.limitFor k id = none := by
    intro k
    rw [ConcurrencyManager.limitFor, hm]
  have hcan : ∀ k, cm.canAcquire k id = true := fun k => cm.canAcquire_none k id (hlim k)
  refine ⟨⟨hcan MediaKind.image, hcan MediaKind.video⟩, ?_, ?_⟩
  · intro k
    exact ⟨by rw [cm.acquire_fst, hcan k], by rw [cm.acquire_slotsOf, if_pos (hcan k)]⟩
  · intro k n
    induction n with
    | zero => rfl
    | succ n ih =>
      have hmn : ((cm.acquireRepeat k id n).1).limits id = none := by
        rw [ConcurrencyManager.acquireRepeat_limits]; exact hm
      have hcann : ((cm.acquireRepeat k id n).1).canAcquire k id = true := by
        apply ConcurrencyManager.canAcquire_none
        rw [ConcurrencyManager.limitFor, hmn]
      show (cm.acquireRepeat k id n).2 +
          (if (((cm.acquireRepeat k id n).1).acquire k id).1 then 1 else 0) = n + 1
      rw [ConcurrencyManager.acquire_fst, hcann, if_pos rfl, ih]

theorem claim_C10_unregistered_unlimited_witness :
    NewConcurrencyManager.CanAcquireImage 5 = true ∧
    (NewConcurrencyManager.acquireRepeat MediaKind.video 5 4).2 = 4 := by
  have h := claim_C10_unregistered_unlimited NewConcurrencyManager 5 rfl
  exact ⟨h.1.1, h.2.2 MediaKind.video 4⟩

/-- One CheckVideoStatus probe as observed by GenerationHandler.pollVideoResult:
the call can fail, return a response without operations, or return the first
operation's status string. -/
inductive ProbeResult where
  | probeError
  | noOperations
  | status (s : String)

/-- The upstream terminal-success status string. -/
def successStatus : String := "MEDIA_GENERATION_STATUS_SUCCESSFUL"

/-- The upstream terminal-error status prefix. -/
def errorStatusPrefix : String := "MEDIA_GENERATION_STATUS_ERROR"

/-- Go strings.HasPrefix, computed on the underlying character lists. -/
def goHasPrefix (p s : String) : Bool := p.data.isPrefixOf s.data

/-- Terminal outcome of the poll loop. -/
inductive PollOutcome where
  | success
  | failed (status : String)
  | timeout
deriving DecidableEq, Repr

/-- GenerationHandler.pollVideoResult's loop body: `fuel` is the remaining
attempt budget, `attempt` the current attempt index; returns the outcome and
the number of CheckVideoStatus calls performed.  Each iteration sleeps the
fixed poll interval (a no-op in this embedding) and then probes once. -/
def pollLoop (probe : Nat → ProbeResult) : Nat → Nat → PollOutcome × Nat
  | _, 0 => (PollOutcome.timeout, 0)
  | attempt, fuel + 1 =>
    match probe attempt with
    | ProbeResult.probeError =>
      let r := pollLoop probe (attempt + 1) fuel
      (r.1, r.2 + 1)
    | ProbeResult.noOperations =>
      let r := pollLoop probe (attempt + 1) fuel
      (r.1, r.2 + 1)
    | ProbeResult.status s =>
      if s = successStatus then (PollOutcome.success, 1)
      else if goHasPrefix errorStatusPrefix s then (PollOutcome.failed s, 1)
      else
        let r := pollLoop probe (attempt + 1) fuel
        (r.1, r.2 + 1)

/-- GenerationHandler.pollVideoResult: poll from attempt 0 with
maxAttempts = cfg.Flow.MaxPollAttempts. -/
def pollVideoResult (probe : Nat → ProbeResult) (maxAttempts : Nat) : PollOutcome × Nat :=
  pollLoop probe 0 maxAttempts

/-- Whether a probe result carries a terminal status. -/
def isTerminalProbe : ProbeResult → Bool
  | ProbeResult.status s => decide (s = successStatus) || goHasPrefix errorStatusPrefix s
  | _ => false

theorem pollLoop_calls_le (probe : Nat → ProbeResult) :
    ∀ (fuel attempt : Nat), (pollLoop probe attempt fuel).2 ≤ fuel := by
  intro fuel
  induction fuel with
  | zero => intro attempt; exact Nat.le_refl 0
  | succ fuel ih =>
    intro attempt
    rcases hp : probe attempt with _ | _ | s
    · simp only [pollLoop, hp]
      have := ih (attempt + 1)
      omega
    · simp only [pollLoop, hp]
      have := ih (attempt + 1)
      omega
    · simp only [pollLoop, hp]
      split
      · omega
      · split
        · omega
        · have := ih (attempt + 1)
          simp only []
          omega

theorem pollLoop_timeout (probe : Nat → ProbeResult)
    (hnt : ∀ n, isTerminalProbe (probe n) = false) :
    ∀ (fuel attempt : Nat), pollLoop probe attempt fuel = (PollOutcome.timeout, fuel) := by
  intro fuel
  induction fuel with
  | zero => intro attempt; rfl
  | succ fuel ih =>
    intro attempt
    have h := hnt attempt
    rcases hp : probe attempt with _ | _ | s
    · simp only [pollLoop, hp, ih (attempt + 1)]
    · simp only [pollLoop, hp, ih (attempt + 1)]
    · rw [hp] at h
      simp only [isTerminalProbe, Bool.or_eq_false_iff, decide_eq_false_iff_not] at h
      simp only [pollLoop, hp, if_neg h.1]
      rw [if_neg (by simp [h.2])]
      simp only [ih (attempt + 1)]

/-- Claim C5: the video poll loop performs at most maxAttempts status probes
and always terminates; if no probe returns a terminal status (e.g. always
pending or always transiently failing, each consuming one attempt) the loop
returns Timeout after exactly maxAttempts probe calls. -/
theorem claim_C5_poll_loop_bounded :
    (∀ (probe : Nat → ProbeResult) (maxAttempts : Nat),
        (pollVideoResult probe maxAttempts).2 ≤ maxAttempts)
    ∧ (∀ (probe : Nat → ProbeResult) (maxAttempts : Nat),
        (∀ n, isTerminalProbe (probe n) = false) →
        pollVideoResult probe maxAttempts = (PollOutcome.timeout, maxAttempts)) := by
  constructor
  · intro probe maxAttempts
    exact pollLoop_calls_le probe maxAttempts 0
  · intro probe maxAttempts hnt
    exact pollLoop_timeout probe hnt maxAttempts 0

theorem claim_C5_poll_loop_bounded_witness :
    pollVideoResult (fun _ => ProbeResult.status "MEDIA_GENERATION_STATUS_PENDING") 3 =
      (PollOutcome.timeout, 3) := by
  exact claim_C5_poll_loop_bounded.2
    (fun _ => ProbeResult.status "MEDIA_GENERATION_STATUS_PENDING") 3
    (fun n =>
      show isTerminalProbe (ProbeResult.status "MEDIA_GENERATION_STATUS_PENDING") = false by
        decide)

/-- The score LoadBalancer.SelectToken assigns a candidate: credits plus one
point per minute since last use, or a flat 1000 bonus when never used.  The
Go float64 arithmetic is embedded exactly over `Rat`; instants are seconds. -/
def tokenScore (now : Int) (t : Token) : Rat :=
  (t.credits : Rat) +
    match t.lastUsedAt with
    | some lu => ((now - lu : Int) : Rat) / 60
    | none => 1000

/-- The filter chain of LoadBalancer.SelectToken: capability flags, known
expiry not in the past, and an advisory free-slot check that is consulted only
when the token declares a positive concurrency limit for the requested kind. -/
def passesFilter (cm : ConcurrencyManager) (forImage forVideo : Bool) (now : Int)
    (t : Token) : Bool :=
  (!forImage || t.imageEnabled) &&
  (!forVideo || t.videoEnabled) &&
  (match t.atExpires with
   | some e => decide (¬ e < now)
   | none => true) &&
  (!(forImage && decide (0 < t.imageConcurrency)) || cm.CanAcquireImage t.id) &&
  (!(forVideo && decide (0 < t.videoConcurrency)) || cm.CanAcquireVideo t.id)

/-- One iteration of SelectToken's best-candidate scan (`score > bestScore`). -/
def selectStep (cm : ConcurrencyManager) (forImage forVideo : Bool) (now : Int)
    (best : Option Token × Rat) (t : Token) : Option Token × Rat :=
  if passesFilter cm forImage forVideo now t then
    if best.2 < tokenScore now t then (some t, tokenScore now t) else best
  else best

/-- LoadBalancer.SelectToken over the active-token list, with bestScore
initialised to -1 and bestToken to nil. -/
def SelectToken (cm : ConcurrencyManager) (tokens : List Token) (forImage forVideo : Bool)
    (now : Int) : Option Token :=
  (tokens.foldl (selectStep cm forImage forVideo now) (none, (-1 : Rat))).1

theorem selectStep_cases (cm : ConcurrencyManager) (fI fV : Bool) (now : Int)
    (acc : Option Token × Rat) (v : Token) :
    selectStep cm fI fV now acc v = acc ∨
      (selectStep cm fI fV now acc v = (some v, tokenScore now v) ∧
        passesFilter cm fI fV now v = true ∧ acc.2 < tokenScore now v) := by
  rw [selectStep]
  by_cases hp : passesFilter cm fI fV now v = true
  · rw [if_pos hp]
    by_cases hlt : acc.2 < tokenScore now v
    · exact Or.inr ⟨if_pos hlt, hp, hlt⟩
    · exact Or.inl (if_neg hlt)
  · exact Or.inl (if_neg hp)

theorem selectStep_score_le (cm : ConcurrencyManager) (fI fV : Bool) (now : Int)
    (acc : Option Token × Rat) (v : Token) :
    acc.2 ≤ (selectStep cm fI fV now acc v).2 := by
  rcases selectStep_cases cm fI fV now acc v with h | ⟨h, _, hlt⟩
  · rw [h]
  · rw [h]; exact le_of_lt hlt

theorem selectStep_dominates (cm : ConcurrencyManager) (fI fV : Bool) (now : Int)
    (acc : Option Token × Rat) (v : Token) (hp : passesFilter cm fI fV now v = true) :
    tokenScore now v ≤ (selectStep cm fI fV now acc v).2 := by
  rw [selectStep, if_pos hp]
  by_cases hlt : acc.2 < tokenScore now v
  · rw [if_pos hlt]
  · rw [if_neg hlt]
    exact le_of_not_lt hlt

theorem selectFold_score_le (cm : ConcurrencyManager) (fI fV : Bool) (now : Int) :
    ∀ (l : List Token) (acc : Option Token × Rat),
      acc.2 ≤ (l.foldl (selectStep cm fI fV now) acc).2 := by
  intro l
  induction l with
  | nil => intro acc; exact le_refl _
  | cons v l ih =>
    intro acc
    exact le_trans (selectStep_score_le cm fI fV now acc v) (ih _)

theorem selectFold_dominates (cm : ConcurrencyManager) (fI fV : Bool) (now : Int) :
    ∀ (l : List Token) (acc : Option Token × Rat) (u : Token), u ∈ l →
      passesFilter cm fI fV now u = true →
      tokenScore now u ≤ (l.foldl (selectStep cm fI fV now) acc).2 := by
  intro l
  induction l with
  | nil => intro acc u hu; exact absurd hu (List.not_mem_nil u)
  | cons v l ih =>
    intro acc u hu hp
    rcases List.mem_cons.mp hu with rfl | hu'
    · exact le_trans (selectStep_dominates cm fI fV now acc u hp)
        (selectFold_score_le cm fI fV now l _)
    · exact ih _ u hu' hp

/-- The accumulator always carries the score of its carried candidate. -/
def goodAcc (now : Int) (acc : Option Token × Rat) : Prop :=
  acc.1 = none ∨ ∃ t, acc.1 = some t ∧ acc.2 = tokenScore now t

theorem selectFold_good (cm : ConcurrencyManager) (fI fV : Bool) (now : Int) :
    ∀ (l : List Token) (acc : Option Token × Rat), goodAcc now acc →
      goodAcc now (l.foldl (selectStep cm fI fV now) acc) := by
  intro l
  induction l with
  | nil => intro acc h; exact h
  | cons v l ih =>
    intro acc h
    refine ih _ ?_
    rcases selectStep_cases cm fI fV now acc v with hc | ⟨hc, _, _⟩
    · rw [hc]; exact h
    · rw [hc]; exact Or.inr ⟨v, rfl, rfl⟩

theorem selectFold_mem (cm : ConcurrencyManager) (fI fV : Bool) (now : Int) :
    ∀ (l : List Token) (acc : Option Token × Rat) (t : Token),
      (l.foldl (selectStep cm fI fV now) acc).1 = some t →
      acc.1 = some t ∨ (t ∈ l ∧ passesFilter cm fI fV now t = true) := by
  intro l
  induction l with
  | nil => intro acc t h; exact Or.inl h
  | cons v l ih =>
    intro acc t h
    rcases ih _ t h with hacc | ⟨hm, hp⟩
    · rcases selectStep_cases cm fI fV now acc v with hc | ⟨hc, hp, _⟩
      · rw [hc] at hacc
        exact Or.inl hacc
      · rw [hc] at hacc
        cases hacc
        exact Or.inr ⟨List.mem_cons_self v l, hp⟩
    · exact Or.inr ⟨List.mem_cons_of_mem v hm, hp⟩

theorem selectFold_none_of_all_fail (cm : ConcurrencyManager) (fI fV : Bool) (now : Int) :
    ∀ (l : List Token) (acc : Option Token × Rat),
      (∀ u ∈ l, passesFilter cm fI fV now u = false) →
      l.foldl (selectStep cm fI fV now) acc = acc := by
  intro l
  induction l with
  | nil => intro acc _; rfl
  | cons v l ih =>
    intro acc hall
    have hv : passesFilter cm fI fV now v = false := hall v (List.mem_cons_self v l)
    have hstep : selectStep cm fI fV now acc v = acc := by
      rw [selectStep, if_neg (by simp [hv])]
    rw [List.foldl_cons, hstep]
    exact ih acc (fun u hu => hall u (List.mem_cons_of_mem v hu))

theorem selectFold_some_stable (cm : ConcurrencyManager) (fI fV : Bool) (now : Int) :
    ∀ (l : List Token) (acc : Option Token × Rat) (w : Token), acc.1 = some w →
      ∃ t, (l.foldl (selectStep cm fI fV now) acc).1 = some t := by
  intro l
  induction l with
  | nil => intro acc w h; exact ⟨w, h⟩
  | cons v l ih =>
    intro acc w h
    rcases selectStep_cases cm fI fV now acc v with hc | ⟨hc, _, _⟩
    · rw [List.foldl_cons, hc]
      exact ih acc w h
    · rw [List.foldl_cons, hc]
      exact ih _ v rfl

theorem selectFold_some_of_exists (cm : ConcurrencyManager) (fI fV : Bool) (now : Int) :
    ∀ (l : List Token) (acc : Option Token × Rat),
      (∃ u ∈ l, passesFilter cm fI fV now u = true ∧ acc.2 < tokenScore now u) →
      ∃ t, (l.foldl (selectStep cm fI fV now) acc).1 = some t := by
  intro l
  induction l with
  | nil => rintro acc ⟨u, hu, _⟩; exact absurd hu (List.not_mem_nil u)
  | cons v l ih =>
    rintro acc ⟨u, hu, hp, hlt⟩
    rcases List.mem_cons.mp hu with rfl | hu'
    · rw [List.foldl_cons, selectStep, if_pos hp, if_pos hlt]
      exact selectFold_some_stable cm fI fV now l _ u rfl
    · rcases selectStep_cases cm fI fV now acc v with hc | ⟨hc, _, _⟩
      · rw [List.foldl_cons, hc]
        exact ih acc ⟨u, hu', hp, hlt⟩
      · rw [List.foldl_cons, hc]
        exact selectFold_some_stable cm fI fV now l _ v rfl

theorem selectFold_first_wins (cm : ConcurrencyManager) (fI fV : Bool) (now : Int) :
    ∀ (l : List Token) (acc : Option Token × Rat) (t : Token),
      (l.foldl (selectStep cm fI fV now) acc).1 = some t →
      acc.1 = some t ∨
        ∃ l1 l2, l = l1 ++ t :: l2 ∧ passesFilter cm fI fV now t = true ∧
          acc.2 < tokenScore now t ∧
          (∀ u ∈ l1, passesFilter cm fI fV now u = true →
            tokenScore now u < tokenScore now t) := by
  intro l
  induction l with
  | nil => intro acc t h; exact Or.inl h
  | cons v l ih =>
    intro acc t h
    rw [List.foldl_cons] at h
    rcases ih _ t h with hacc | ⟨l1, l2, hsplit, hp, hlt, hearlier⟩
    · rcases selectStep_cases cm fI fV now acc v with hc | ⟨hc, hpv, hltv⟩
      · rw [hc] at hacc
        exact Or.inl hacc
      · rw [hc] at hacc
        cases hacc
        exact Or.inr ⟨[], l, rfl, hpv, hltv, fun u hu => absurd hu (List.not_mem_nil u)⟩
    · refine Or.inr ⟨v :: l1, l2, by rw [hsplit]; rfl, hp, ?_, ?_⟩
      · exact lt_of_le_of_lt (selectStep_score_le cm fI fV now acc v) hlt
      · intro u hu hpu
        rcases List.mem_cons.mp hu with rfl | hu'
        · exact lt_of_le_of_lt (selectStep_dominates cm fI fV now acc u hpu) hlt
        · exact hearlier u hu' hpu

theorem passesFilter_spec (cm : ConcurrencyManager) (fI fV : Bool) (now : Int) (t : Token)
    (hp : passesFilter cm fI fV now t = true) :
    (fI = true → t.imageEnabled = true) ∧ (fV = true → t.videoEnabled = true) ∧
    (∀ e, t.atExpires = some e → ¬ e < now) ∧
    (fI = true → 0 < t.imageConcurrency → cm.CanAcquireImage t.id = true) ∧
    (fV = true → 0 < t.videoConcurrency → cm.CanAcquireVideo t.id = true) := by
  rw [passesFilter] at hp
  simp only [Bool.and_eq_true, Bool.or_eq_true, Bool.not_eq_true'] at hp
  obtain ⟨⟨⟨⟨h1, h2⟩, h3⟩, h4⟩, h5⟩ := hp
  refine ⟨?_, ?_, ?_, ?_, ?_⟩
  · intro hf
    rcases h1 with h | h
    · rw [hf] at h; cases h
    · exact h
  · intro hf
    rcases h2 with h | h
    · rw [hf] at h; cases h
    · exact h
  · intro e he
    rw [he] at h3
    exact of_decide_eq_true h3
  · intro hf hpos
    rcases h4 with h | h
    · rw [hf] at h
      simp only [Bool.true_and, decide_eq_false_iff_not] at h
      exact absurd hpos h
    · exact h
  · intro hf hpos
    rcases h5 with h | h
    · rw [hf] at h
      simp only [Bool.true_and, decide_eq_false_iff_not] at h
      exact absurd hpos h
    · exact h

/-- Claim C4: SelectToken never returns a token lacking the requested
capability flag, or whose known expiry is already past, or without a free slot
while declaring a positive concurrency limit for the requested kind; and it
returns none when every active token fails the filter chain. -/
theorem claim_C4_select_respects_filters :
    ∀ (cm : ConcurrencyManager) (tokens : List Token) (forImage forVideo : Bool) (now : Int),
      (∀ t, SelectToken cm tokens forImage forVideo now = some t →
        t ∈ tokens
        ∧ (forImage = true → t.imageEnabled = true)
        ∧ (forVideo = true → t.videoEnabled = true)
        ∧ (∀ e, t.atExpires = some e → ¬ e < now)
        ∧ (forImage = true → 0 < t.imageConcurrency → cm.CanAcquireImage t.id = true)
        ∧ (forVideo = true → 0 < t.videoConcurrency → cm.CanAcquireVideo t.id = true))
      ∧ ((∀ t ∈ tokens, passesFilter cm forImage forVideo now t = false) →
          SelectToken cm tokens forImage forVideo now = none) := by
  intro cm tokens fI fV now
  constructor
  · intro t h
    rcases selectFold_mem cm fI fV now tokens (none, (-1 : Rat)) t h with hacc | ⟨hm, hp⟩
    · cases hacc
    · obtain ⟨e1, e2, e3, e4, e5⟩ := passesFilter_spec cm fI fV now t hp
      exact ⟨hm, e1, e2, e3, e4, e5⟩
  · intro hall
    show (tokens.foldl (selectStep cm fI fV now) (none, (-1 : Rat))).1 = none
    rw [selectFold_none_of_all_fail cm fI fV now tokens (none, (-1 : Rat)) hall]

/-- An eligible, never-used, image-enabled credential used by the C4 witness. -/
def c4Token : Token :=
  { id := 1, ST := "st-1", AT := "at-1", atExpires := some 100, isActive := true,
    lastUsedAt := none, credits := 10, userPaygateTier := "", currentProjectID := "p-1",
    imageEnabled := true, videoEnabled := false, imageConcurrency := -1,
    videoConcurrency := 0, banReason := none, bannedAt := none }

/-- A credential failing the image-capability filter, for the C4 witness. -/
def c4BadToken : Token :=
  { c4Token with id := 2, imageEnabled := false }

theorem claim_C4_select_respects_filters_witness :
    c4Token.imageEnabled = true ∧
    SelectToken NewConcurrencyManager [c4BadToken] true false 0 = none := by
  have h := claim_C4_select_respects_filters
  constructor
  · have hsel : SelectToken NewConcurrencyManager [c4Token] true false 0 = some c4Token := by
      show (selectStep NewConcurrencyManager true false 0 (none, (-1 : Rat)) c4Token).1 =
        some c4Token
      rw [selectStep, if_pos (by decide), if_pos]
      show (-1 : Rat) < tokenScore 0 c4Token
      norm_num [tokenScore, c4Token]
    exact ((h NewConcurrencyManager [c4Token] true false 0).1 c4Token hsel).2.1 rfl
  · refine (h NewConcurrencyManager [c4BadToken] true false 0).2 ?_
    intro t ht
    rw [List.mem_singleton] at ht
    subst ht
    decide

theorem select_pair_of_score_lt (cm : ConcurrencyManager) (fI fV : Bool) (now : Int)
    (u v : Token) (hpu : passesFilter cm fI fV now u = true)
    (hpv : passesFilter cm fI fV now v = true)
    (hvu : tokenScore now v < tokenScore now u)
    (hu : (-1 : Rat) < tokenScore now u) :
    SelectToken cm [u, v] fI fV now = some u ∧ SelectToken cm [v, u] fI fV now = some u := by
  constructor
  · show (selectStep cm fI fV now (selectStep cm fI fV now (none, (-1 : Rat)) u) v).1 = some u
    have h1 : selectStep cm fI fV now (none, (-1 : Rat)) u = (some u, tokenScore now u) := by
      rw [selectStep, if_pos hpu, if_pos hu]
    rw [h1, selectStep, if_pos hpv, if_neg (lt_asymm hvu)]
  · show (selectStep cm fI fV now (selectStep cm fI fV now (none, (-1 : Rat)) v) u).1 = some u
    by_cases hv1 : (-1 : Rat) < tokenScore now v
    · have h1 : selectStep cm fI fV now (none, (-1 : Rat)) v = (some v, tokenScore now v) := by
        rw [selectStep, if_pos hpv, if_pos hv1]
      rw [h1, selectStep, if_pos hpu, if_pos hvu]
    · have h1 : selectStep cm fI fV now (none, (-1 : Rat)) v = (none, (-1 : Rat)) := by
        rw [selectStep, if_pos hpv, if_neg hv1]
      rw [h1, selectStep, if_pos hpu, if_pos hu]

/-- Claim C9 (amended): any returned token is a surviving candidate of maximal
score that strictly beats every earlier surviving candidate (ties to the
first), and some token is returned provided a surviving candidate scores above
the scan's -1 sentinel; consequently, of two eligible candidates with equal
credit balance the longer-idle one is selected, and a never-used candidate is
selected over one used less than 1000 minutes ago — in both cases provided the
preferred candidate's score exceeds -1 (see the counterexample for why the
sentinel proviso is needed). -/
theorem claim_C9_select_scoring_amended :
    (∀ (cm : ConcurrencyManager) (tokens : List Token) (fI fV : Bool) (now : Int) (t : Token),
        SelectToken cm tokens fI fV now = some t →
        t ∈ tokens ∧ passesFilter cm fI fV now t = true ∧
          (∀ u ∈ tokens, passesFilter cm fI fV now u = true →
            tokenScore now u ≤ tokenScore now t))
    ∧ (∀ (cm : ConcurrencyManager) (tokens : List Token) (fI fV : Bool) (now : Int),
        (∃ u ∈ tokens, passesFilter cm fI fV now u = true ∧ (-1 : Rat) < tokenScore now u) →
        ∃ t, SelectToken cm tokens fI fV now = some t)
    ∧ (∀ (cm : ConcurrencyManager) (tokens : List Token) (fI fV : Bool) (now : Int) (t : Token),
        SelectToken cm tokens fI fV now = some t →
        ∃ l1 l2, tokens = l1 ++ t :: l2 ∧
          (∀ u ∈ l1, passesFilter cm fI fV now u = true →
            tokenScore now u < tokenScore now t))
    ∧ (∀ (cm : ConcurrencyManager) (fI fV : Bool) (now : Int) (u v : Token) (lu lv : Int),
        passesFilter cm fI fV now u = true → passesFilter cm fI fV now v = true →
        u.credits = v.credits → u.lastUsedAt = some lu → v.lastUsedAt = some lv →
        lu < lv → (-1 : Rat) < tokenScore now u →
        SelectToken cm [u, v] fI fV now = some u ∧ SelectToken cm [v, u] fI fV now = some u)
    ∧ (∀ (cm : ConcurrencyManager) (fI fV : Bool) (now : Int) (u v : Token) (lv : Int),
        passesFilter cm fI fV now u = true → passesFilter cm fI fV now v = true →
        u.credits = v.credits → u.lastUsedAt = none → v.lastUsedAt = some lv →
        now - lv < 60000 → (-1 : Rat) < tokenScore now u →
        SelectToken cm [u, v] fI fV now = some u ∧ SelectToken cm [v, u] fI fV now = some u) := by
  refine ⟨?_, ?_, ?_, ?_, ?_⟩
  · intro cm tokens fI fV now t h
    have hmem := selectFold_mem cm fI fV now tokens (none, (-1 : Rat)) t h
    rcases hmem with hacc | ⟨hm, hp⟩
    · cases hacc
    · refine ⟨hm, hp, ?_⟩
      intro u hu hpu
      have hdom := selectFold_dominates cm fI fV now tokens (none, (-1 : Rat)) u hu hpu
      have hgood := selectFold_good cm fI fV now tokens (none, (-1 : Rat)) (Or.inl rfl)
      have hfold : (tokens.foldl (selectStep cm fI fV now) (none, (-1 : Rat))).1 = some t := h
      rcases hgood with hnone | ⟨w, hw, hscore⟩
      · rw [hfold] at hnone; cases hnone
      · rw [hfold] at hw
        cases hw
        rw [← hscore]
        exact hdom
  · intro cm tokens fI fV now ⟨u, hu, hp, hlt⟩
    exact selectFold_some_of_exists cm fI fV now tokens (none, (-1 : Rat)) ⟨u, hu, hp, hlt⟩
  · intro cm tokens fI fV now t h
    rcases selectFold_first_wins cm fI fV now tokens (none, (-1 : Rat)) t h with hacc | hsplit
    · cases hacc
    · obtain ⟨l1, l2, hsplit, _, _, hearlier⟩ := hsplit
      exact ⟨l1, l2, hsplit, hearlier⟩
  · intro cm fI fV now u v lu lv hpu hpv hc hLu hLv hlt hu
    have hvu : tokenScore now v < tokenScore now u := by
      simp only [tokenScore, hLu, hLv]
      rw [hc]
      have hcast : ((now - lv : Int) : Rat) < ((now - lu : Int) : Rat) := by
        exact_mod_cast (by omega : (now - lv : Int) < now - lu)
      linarith
    exact select_pair_of_score_lt cm fI fV now u v hpu hpv hvu hu
  · intro cm fI fV now u v lv hpu hpv hc hLu hLv hrecent hu
    have hvu : tokenScore now v < tokenScore now u := by
      simp only [tokenScore, hLu, hLv]
      rw [hc]
      have hcast : ((now - lv : Int) : Rat) < (60000 : Rat) := by
        exact_mod_cast hrecent
      linarith
    exact select_pair_of_score_lt cm fI fV now u v hpu hpv hvu hu

/-- A surviving candidate whose score equals the -1 sentinel exactly, refuting
the original C9: SelectToken returns none although a maximum-score surviving
candidate exists. -/
def c9Token : Token :=
  { id := 3, ST := "st-3", AT := "at-3", atExpires := none, isActive := true,
    lastUsedAt := none, credits := -1001, userPaygateTier := "", currentProjectID := "p-3",
    imageEnabled := true, videoEnabled := true, imageConcurrency := -1,
    videoConcurrency := -1, banReason := none, bannedAt := none }

/-- Claim C9 (counterexample): c9Token survives every filter and is the unique
candidate — hence the maximum-score one — yet SelectToken returns none,
because its score (credits -1001 plus never-used bonus 1000) does not exceed
the scan's initial bestScore of -1. -/
theorem claim_C9_counterexample :
    passesFilter NewConcurrencyManager true false 0 c9Token = true ∧
    tokenScore 0 c9Token = -1 ∧
    SelectToken NewConcurrencyManager [c9Token] true false 0 = none := by
  have hscore : tokenScore 0 c9Token = -1 := by
    norm_num [tokenScore, c9Token]
  refine ⟨by decide, hscore, ?_⟩
  show (selectStep NewConcurrencyManager true false 0 (none, (-1 : Rat)) c9Token).1 = none
  rw [selectStep, if_pos (by decide), if_neg]
  rw [hscore]
  exact lt_irrefl _

/-- Equal-credit candidates for the C9 witness: c9u idle since 0, c9v idle
since 60, observed at now = 120. -/
def c9u : Token :=
  { c4Token with id := 4, credits := 10, lastUsedAt := some 0, atExpires := none }

/-- The more recently used equal-credit candidate for the C9 witness. -/
def c9v : Token :=
  { c4Token with id := 5, credits := 10, lastUsedAt := some 60, atExpires := none }

theorem claim_C9_select_scoring_amended_witness :
    SelectToken NewConcurrencyManager [c9u, c9v] true false 120 = some c9u ∧
    SelectToken NewConcurrencyManager [c9v, c9u] true false 120 = some c9u := by
  have h := claim_C9_select_scoring_amended
  refine h.2.2.2.1 NewConcurrencyManager true false 120 c9u c9v 0 60 (by decide) (by decide)
    rfl rfl rfl (by norm_num) ?_
  norm_num [tokenScore, c9u, c4Token]

/-- models.TokenStats: per-credential usage statistics row. -/
structure TokenStats where
  imageCount : Int
  videoCount : Int
  successCount : Int
  errorCount : Int
  lastSuccessAt : Option Int
  lastErrorAt : Option Int
  todayImageCount : Int
  todayVideoCount : Int
  todayErrorCount : Int
  todayDate : Option String
  consecutiveErrorCount : Int
deriving DecidableEq, Repr

/-- The zero row database.GetTokenStats returns when no row exists. -/
def zeroStats : TokenStats :=
  { imageCount := 0, videoCount := 0, successCount := 0, errorCount := 0,
    lastSuccessAt := none, lastErrorAt := none, todayImageCount := 0,
    todayVideoCount := 0, todayErrorCount := 0, todayDate := none,
    consecutiveErrorCount := 0 }

/-- The slice of the SQLite store the token manager reads and writes: the
tokens table (ordered by id, as GetAllTokens returns it), the token_stats
table, and admin_config.error_ban_threshold. -/
structure Database where
  tokens : List Token
  stats : Int → Option TokenStats
  errorBanThreshold : Int

/-- database.GetToken. -/
def Database.getToken (db : Database) (id : Int) : Option Token :=
  db.tokens.find? (fun t => t.id == id)

/-- database.UpdateToken specialised to a concrete field patch `f`. -/
def Database.updateTokenWith (db : Database) (id : Int) (f : Token → Token) : Database :=
  { db with tokens := db.tokens.map (fun t => if t.id = id then f t else t) }

/-- database.GetTokenStats: a zero row when none exists (sql.ErrNoRows). -/
def Database.getTokenStats (db : Database) (id : Int) : TokenStats :=
  (db.stats id).getD zeroStats

/-- A SQL UPDATE on token_stats: a no-op when the row is absent. -/
def Database.updateStatsWith (db : Database) (id : Int) (f : TokenStats → TokenStats) :
    Database :=
  { db with stats := fun j => if j = id then (db.stats j).map f else db.stats j }

/-- database.ResetErrorCount. -/
def Database.resetErrorCount (db : Database) (id : Int) : Database :=
  db.updateStatsWith id (fun s => { s with consecutiveErrorCount := 0 })

/-- The statType argument of database.IncrementTokenStats. -/
inductive StatType where
  | image
  | video
  | error

/-- The lazy same-day counter reset performed first by IncrementTokenStats. -/
def statDayReset (today : String) (s : TokenStats) : TokenStats :=
  if s.todayDate ≠ some today then
    { s with
      todayImageCount := 0
      todayVideoCount := 0
      todayErrorCount := 0
      todayDate := some today }
  else s

/-- database.IncrementTokenStats: day reset, then the per-type update.  The
image/video queries also bump success_count and zero the consecutive errors;
the error query bumps error counters and the consecutive-error count. -/
def Database.incrementTokenStats (db : Database) (id : Int) (statType : StatType)
    (today : String) (now : Int) : Database :=
  db.updateStatsWith id (fun s0 =>
    let s := statDayReset today s0
    match statType with
    | StatType.image =>
      { s with
        imageCount := s.imageCount + 1
        todayImageCount := s.todayImageCount + 1
        successCount := s.successCount + 1
        lastSuccessAt := some now
        consecutiveErrorCount := 0 }
    | StatType.video =>
      { s with
        videoCount := s.videoCount + 1
        todayVideoCount := s.todayVideoCount + 1
        successCount := s.successCount + 1
        lastSuccessAt := some now
        consecutiveErrorCount := 0 }
    | StatType.error =>
      { s with
        errorCount := s.errorCount + 1
        todayErrorCount := s.todayErrorCount + 1
        lastErrorAt := some now
        consecutiveErrorCount := s.consecutiveErrorCount + 1 })

/-- TokenManager.DisableToken: is_active := false, nothing else. -/
def DisableToken (db : Database) (id : Int) : Database :=
  db.updateTokenWith id (fun t => { t with isActive := false })

/-- TokenManager.RecordError: increment the error statistics, then disable the
token when the new consecutive-error count has reached the configured
threshold. -/
def RecordError (db : Database) (id : Int) (today : String) (now : Int) : Database :=
  if (db.incrementTokenStats id StatType.error today now).errorBanThreshold ≤
      ((db.incrementTokenStats id StatType.error today now).getTokenStats
        id).consecutiveErrorCount then
    DisableToken (db.incrementTokenStats id StatType.error today now) id
  else
    db.incrementTokenStats id StatType.error today now

/-- TokenManager.RecordSuccess: reset the consecutive-error count. -/
def RecordSuccess (db : Database) (id : Int) : Database :=
  db.resetErrorCount id

/-- TokenManager.BanTokenFor429. -/
def BanTokenFor429 (db : Database) (id : Int) (now : Int) : Database :=
  db.updateTokenWith id (fun t =>
    { t with
      isActive := false
      banReason := some "429_rate_limit"
      bannedAt := some now })

/-- RecordError iterated n times on the same credential. -/
def recordErrorIter (db : Database) (id : Int) (today : String) (now : Int) :
    Nat → Database
  | 0 => db
  | n + 1 => RecordError (recordErrorIter db id today now n) id today now

/-- The upstream collaborator surface used by the refresh path: the ST→AT
exchange (returning the new access token and optional parsed expiry) and the
best-effort credit query; `none` is a failed call. -/
structure FlowClient where
  stToAT : String → Option (String × Option Int)
  getCredits : String → Option Int

/-- One hour, in the embedding's seconds timescale. -/
def hourSeconds : Int := 3600

/-- TokenManager.refreshATInternal: re-fetch the token, exchange ST for a new
AT; on failure disable the token and report false; on success store the new AT
(and expiry when parsed), then best-effort refresh credits.  The last
component records whether the exchange was called. -/
def refreshATInternal (db : Database) (fc : FlowClient) (id : Int) :
    Bool × Database × Bool :=
  match db.getToken id with
  | none => (false, db, false)
  | some token =>
    match fc.stToAT token.ST with
    | none => (false, DisableToken db id, true)
    | some (newAT, newExp) =>
      let db1 := db.updateTokenWith id (fun t =>
        { t with
          AT := newAT
          atExpires := match newExp with | some e => some e | none => t.atExpires })
      let db2 := match fc.getCredits newAT with
        | some c => db1.updateTokenWith id (fun t => { t with credits := c })
        | none => db1
      (true, db2, true)

/-- TokenManager.IsATValid: usable as-is only when an AT is present with a
known expiry at least one hour away; otherwise refresh. -/
def IsATValid (db : Database) (fc : FlowClient) (now : Int) (id : Int) :
    Bool × Database × Bool :=
  match db.getToken id with
  | none => (false, db, false)
  | some token =>
    if token.AT = "" then refreshATInternal db fc id
    else
      match token.atExpires with
      | none => refreshATInternal db fc id
      | some exp =>
        if exp - now < hourSeconds then refreshATInternal db fc id
        else (true, db, false)

/-- The eligibility predicate of TokenManager.AutoUnban429Tokens: 429-banned,
inactive, with a recorded ban timestamp, not expired, banned at least 12 hours
ago. -/
def autoUnbanEligible (now : Int) (t : Token) : Bool :=
  decide (t.banReason = some "429_rate_limit") && !t.isActive &&
    (match t.bannedAt with
     | none => false
     | some b =>
       (match t.atExpires with
        | some e => !decide (e < now)
        | none => true) && decide (12 * hourSeconds ≤ now - b))

/-- The field patch AutoUnban429Tokens applies to an eligible token. -/
def unban429Updates (t : Token) : Token :=
  { t with isActive := true, banReason := none, bannedAt := none }

/-- One iteration of AutoUnban429Tokens' scan. -/
def autoUnbanStep (now : Int) (db : Database) (t : Token) : Database :=
  if autoUnbanEligible now t then
    (db.updateTokenWith t.id unban429Updates).resetErrorCount t.id
  else db

/-- TokenManager.AutoUnban429Tokens: scan the token snapshot, unbanning each
eligible token and resetting its error count. -/
def AutoUnban429Tokens (db : Database) (now : Int) : Database :=
  db.tokens.foldl (autoUnbanStep now) db

theorem find?_map_update (id : Int) (f : Token → Token) (hf : ∀ u, (f u).id = u.id) :
    ∀ (l : List Token) (t : Token), l.find? (fun u => u.id == id) = some t →
      (l.map (fun u => if u.id = id then f u else u)).find? (fun u => u.id == id) =
        some (f t) := by
  intro l
  induction l with
  | nil => intro t h; cases h
  | cons v l ih =>
    intro t h
    by_cases hv : v.id = id
    · rw [List.find?_cons_of_pos _ (by simp [hv])] at h
      cases h
      rw [List.map_cons, if_pos hv]
      exact List.find?_cons_of_pos _ (by simp [hf, hv])
    · rw [List.find?_cons_of_neg _ (by simp [hv])] at h
      rw [List.map_cons, if_neg hv]
      rw [List.find?_cons_of_neg _ (by simp [hv])]
      exact ih t h

theorem Database.getToken_updateTokenWith (db : Database) (id : Int) (f : Token → Token)
    (hf : ∀ u, (f u).id = u.id) (t : Token) (h : db.getToken id = some t) :
    (db.updateTokenWith id f).getToken id = some (f t) :=
  find?_map_update id f hf db.tokens t h

theorem Database.stats_updateStatsWith_self (db : Database) (id : Int)
    (f : TokenStats → TokenStats) :
    (db.updateStatsWith id f).stats id = (db.stats id).map f := by
  simp [Database.updateStatsWith]

theorem statDayReset_consec (today : String) (s : TokenStats) :
    (statDayReset today s).consecutiveErrorCount = s.consecutiveErrorCount := by
  rw [statDayReset]
  split <;> rfl

theorem incrementError_stats (db : Database) (id : Int) (today : String) (now : Int)
    (s : TokenStats) (h : db.stats id = some s) :
    ∃ s', (db.incrementTokenStats id StatType.error today now).stats id = some s' ∧
      s'.consecutiveErrorCount = s.consecutiveErrorCount + 1 := by
  rw [Database.incrementTokenStats, Database.stats_updateStatsWith_self, h]
  exact ⟨_, rfl, statDayReset_consec today s ▸ rfl⟩

theorem RecordError_threshold (db : Database) (id : Int) (today : String) (now : Int) :
    (RecordError db id today now).errorBanThreshold = db.errorBanThreshold := by
  rw [RecordError]
  split <;> rfl

theorem RecordError_cond (db : Database) (id : Int) (today : String) (now : Int)
    (s : TokenStats) (h : db.stats id = some s) :
    ((db.incrementTokenStats id StatType.error today now).getTokenStats
      id).consecutiveErrorCount = s.consecutiveErrorCount + 1 := by
  obtain ⟨s', hs', hc⟩ := incrementError_stats db id today now s h
  rw [Database.getTokenStats, hs']
  exact hc

theorem RecordError_stats (db : Database) (id : Int) (today : String) (now : Int)
    (s : TokenStats) (h : db.stats id = some s) :
    ∃ s', (RecordError db id today now).stats id = some s' ∧
      s'.consecutiveErrorCount = s.consecutiveErrorCount + 1 := by
  obtain ⟨s', hs', hc⟩ := incrementError_stats db id today now s h
  rw [RecordError]
  split
  · exact ⟨s', hs', hc⟩
  · exact ⟨s', hs', hc⟩

theorem RecordError_tokens_of_lt (db : Database) (id : Int) (today : String) (now : Int)
    (s : TokenStats) (h : db.stats id = some s)
    (hlt : s.consecutiveErrorCount + 1 < db.errorBanThreshold) :
    (RecordError db id today now).tokens = db.tokens := by
  rw [RecordError, if_neg]
  · rfl
  · rw [RecordError_cond db id today now s h]
    show ¬ db.errorBanThreshold ≤ s.consecutiveErrorCount + 1
    omega

theorem RecordError_disables (db : Database) (id : Int) (today : String) (now : Int)
    (s : TokenStats) (h : db.stats id = some s)
    (hge : db.errorBanThreshold ≤ s.consecutiveErrorCount + 1)
    (t : Token) (ht : db.getToken id = some t) :
    (RecordError db id today now).getToken id = some { t with isActive := false } := by
  rw [RecordError, if_pos]
  · have ht1 : (db.incrementTokenStats id StatType.error today now).getToken id = some t := ht
    exact (db.incrementTokenStats id StatType.error today now).getToken_updateTokenWith id
      (fun u => { u with isActive := false }) (fun u => rfl) t ht1
  · rw [RecordError_cond db id today now s h]
    exact hge

/-- From a zero consecutive-error count with an intact stats row and the token
present, n < threshold RecordErrors leave the token untouched and the
threshold-th disables it. -/
theorem recordError_run (id : Int) (today : String) (now : Int) (T : Nat)
    (db : Database) (t : Token) (s : TokenStats)
    (hth : db.errorBanThreshold = (T : Int))
    (ht : db.getToken id = some t)
    (hs : db.stats id = some s) (hc0 : s.consecutiveErrorCount = 0) :
    ∀ n : Nat, n ≤ T →
      ∃ s', (recordErrorIter db id today now n).stats id = some s' ∧
        s'.consecutiveErrorCount = (n : Int) ∧
        (recordErrorIter db id today now n).errorBanThreshold = (T : Int) ∧
        (n < T → (recordErrorIter db id today now n).getToken id = some t) ∧
        (0 < T → n = T →
          (recordErrorIter db id today now n).getToken id =
            some { t with isActive := false }) := by
  intro n
  induction n with
  | zero =>
    intro _
    refine ⟨s, hs, by rw [hc0]; rfl, hth, fun _ => ht, fun hT h0 => ?_⟩
    omega
  | succ n ih =>
    intro hn
    obtain ⟨s', hs', hc', hth', htok', _⟩ := ih (by omega)
    have hnT : n < T := by omega
    have htokn := htok' hnT
    obtain ⟨s'', hs'', hc''⟩ :=
      RecordError_stats (recordErrorIter db id today now n) id today now s' hs'
    refine ⟨s'', hs'', by rw [hc'', hc']; push_cast; ring, ?_, ?_, ?_⟩
    · show (RecordError (recordErrorIter db id today now n) id today now).errorBanThreshold =
        (T : Int)
      rw [RecordError_threshold]
      exact hth'
    · intro hlt
      show (RecordError (recordErrorIter db id today now n) id today now).getToken id = some t
      rw [Database.getToken,
        RecordError_tokens_of_lt (recordErrorIter db id today now n) id today now s' hs'
          (by rw [hth', hc']; push_cast; omega)]
      exact htokn
    · intro hT heq
      show (RecordError (recordErrorIter db id today now n) id today now).getToken id =
        some { t with isActive := false }
      refine RecordError_disables (recordErrorIter db id today now n) id today now s' hs'
        ?_ t htokn
      rw [hth', hc']
      have : n + 1 = T := heq
      push_cast
      omega

/-- Claim C6: recordError increments the consecutive-error count and, when the
new count reaches the configured threshold, disables the credential with every
other field (including the ban reason) untouched; below the threshold the
tokens table is untouched; recordSuccess resets the count to 0 and after it a
fresh full run of threshold consecutive errors is needed to disable. -/
theorem claim_C6_error_threshold_disable :
    (∀ (db : Database) (id : Int) (today : String) (now : Int) (s : TokenStats),
        db.stats id = some s →
        ∃ s', (RecordError db id today now).stats id = some s' ∧
          s'.consecutiveErrorCount = s.consecutiveErrorCount + 1)
    ∧ (∀ (db : Database) (id : Int) (today : String) (now : Int) (s : TokenStats) (t : Token),
        db.stats id = some s → db.getToken id = some t →
        db.errorBanThreshold ≤ s.consecutiveErrorCount + 1 →
        (RecordError db id today now).getToken id = some { t with isActive := false })
    ∧ (∀ (db : Database) (id : Int) (today : String) (now : Int) (s : TokenStats),
        db.stats id = some s →
        s.consecutiveErrorCount + 1 < db.errorBanThreshold →
        (RecordError db id today now).tokens = db.tokens)
    ∧ (∀ (db : Database) (id : Int),
        ((RecordSuccess db id).getTokenStats id).consecutiveErrorCount = 0 ∧
        (RecordSuccess db id).tokens = db.tokens)
    ∧ (∀ (db : Database) (id : Int) (today : String) (now : Int) (T : Nat) (t : Token)
        (s : TokenStats),
        db.errorBanThreshold = (T : Int) → 0 < T →
        db.getToken id = some t → db.stats id = some s →
        (∀ n : Nat, n < T →
          (recordErrorIter (RecordSuccess db id) id today now n).getToken id = some t) ∧
        (recordErrorIter (RecordSuccess db id) id today now T).getToken id =
          some { t with isActive := false }) := by
  refine ⟨?_, ?_, ?_, ?_, ?_⟩
  · intro db id today now s h
    exact RecordError_stats db id today now s h
  · intro db id today now s t hs ht hge
    exact RecordError_disables db id today now s hs hge t ht
  · intro db id today now s hs hlt
    exact RecordError_tokens_of_lt db id today now s hs hlt
  · intro db id
    constructor
    · rw [RecordSuccess, Database.getTokenStats, Database.resetErrorCount,
        Database.stats_updateStatsWith_self]
      rcases db.stats id with _ | s <;> rfl
    · rfl
  · intro db id today now T t s hth hT ht hs
    have hth0 : (RecordSuccess db id).errorBanThreshold = (T : Int) := hth
    have ht0 : (RecordSuccess db id).getToken id = some t := ht
    have hs0 : (RecordSuccess db id).stats id =
        some { s with consecutiveErrorCount := 0 } := by
      rw [RecordSuccess, Database.resetErrorCount, Database.stats_updateStatsWith_self, hs]
      rfl
    have hrun := recordError_run id today now T (RecordSuccess db id) t
      { s with consecutiveErrorCount := 0 } hth0 ht0 hs0 rfl
    constructor
    · intro n hn
      obtain ⟨s', _, _, _, htok, _⟩ := hrun n (by omega)
      exact htok hn
    · obtain ⟨s', _, _, _, _, hdis⟩ := hrun T (le_refl T)
      exact hdis hT rfl

/-- The active credential for the C6 witness. -/
def c6Token : Token :=
  { c4Token with id := 30 }

/-- A one-credential store with stats row present and error threshold 2. -/
def c6db : Database :=
  { tokens := [c6Token]
    stats := fun j => if j = 30 then some zeroStats else none
    errorBanThreshold := 2 }

theorem claim_C6_error_threshold_disable_witness :
    (recordErrorIter (RecordSuccess c6db 30) 30 "2026-01-01" 0 1).getToken 30 =
      some c6Token ∧
    (recordErrorIter (RecordSuccess c6db 30) 30 "2026-01-01" 0 2).getToken 30 =
      some { c6Token with isActive := false } := by
  have h := claim_C6_error_threshold_disable.2.2.2.2 c6db 30 "2026-01-01" 0 2 c6Token
    zeroStats rfl (by norm_num) rfl rfl
  exact ⟨h.1 1 (by norm_num), h.2⟩

theorem refreshATInternal_calls (db : Database) (fc : FlowClient) (id : Int) (t : Token)
    (h : db.getToken id = some t) : (refreshATInternal db fc id).2.2 = true := by
  simp only [refreshATInternal, h]
  rcases hex : fc.stToAT t.ST with _ | ⟨newAT, newExp⟩ <;> simp [hex]

theorem refreshATInternal_failure (db : Database) (fc : FlowClient) (id : Int) (t : Token)
    (h : db.getToken id = some t) (hex : fc.stToAT t.ST = none) :
    refreshATInternal db fc id = (false, DisableToken db id, true) := by
  simp only [refreshATInternal, h, hex]

theorem IsATValid_refresh (db : Database) (fc : FlowClient) (now id : Int) (t : Token)
    (h : db.getToken id = some t)
    (hcase : t.AT = "" ∨ t.atExpires = none ∨
      (∃ e, t.atExpires = some e ∧ e - now < hourSeconds)) :
    IsATValid db fc now id = refreshATInternal db fc id := by
  simp only [IsATValid, h]
  rcases hcase with hAT | hexp | ⟨e, hexp, hlt⟩
  · rw [if_pos hAT]
  · by_cases hAT : t.AT = ""
    · rw [if_pos hAT]
    · rw [if_neg hAT]
      simp only [hexp]
  · by_cases hAT : t.AT = ""
    · rw [if_pos hAT]
    · rw [if_neg hAT]
      simp only [hexp]
      rw [if_pos hlt]

/-- Claim C7: with an access token present and a known expiry at least one
hour away, IsATValid returns true without calling the exchange and leaves the
store untouched; when the token is absent, its expiry unknown, or its expiry
under one hour away, the exchange is called; and when that exchange fails the
credential is disabled (active=false, ban reason untouched) and false is
returned. -/
theorem claim_C7_ensure_fresh_secret :
    (∀ (db : Database) (fc : FlowClient) (now id : Int) (t : Token) (e : Int),
        db.getToken id = some t → t.AT ≠ "" → t.atExpires = some e →
        hourSeconds ≤ e - now →
        IsATValid db fc now id = (true, db, false))
    ∧ (∀ (db : Database) (fc : FlowClient) (now id : Int) (t : Token),
        db.getToken id = some t →
        (t.AT = "" ∨ t.atExpires = none ∨
          (∃ e, t.atExpires = some e ∧ e - now < hourSeconds)) →
        (IsATValid db fc now id).2.2 = true)
    ∧ (∀ (db : Database) (fc : FlowClient) (now id : Int) (t : Token),
        db.getToken id = some t →
        (t.AT = "" ∨ t.atExpires = none ∨
          (∃ e, t.atExpires = some e ∧ e - now < hourSeconds)) →
        fc.stToAT t.ST = none →
        IsATValid db fc now id = (false, DisableToken db id, true) ∧
          (DisableToken db id).getToken id = some { t with isActive := false }) := by
  refine ⟨?_, ?_, ?_⟩
  · intro db fc now id t e h hAT hexp hfar
    simp only [IsATValid, h]
    rw [if_neg hAT]
    simp only [hexp]
    rw [if_neg (show ¬ (e - now < hourSeconds) by omega)]
  · intro db fc now id t h hcase
    rw [IsATValid_refresh db fc now id t h hcase]
    exact refreshATInternal_calls db fc id t h
  · intro db fc now id t h hcase hex
    refine ⟨?_, ?_⟩
    · rw [IsATValid_refresh db fc now id t h hcase]
      exact refreshATInternal_failure db fc id t h hex
    · exact db.getToken_updateTokenWith id (fun u => { u with isActive := false })
        (fun u => rfl) t h

/-- A fresh credential (expiry far away) for the C7 witness. -/
def c7Fresh : Token :=
  { c4Token with id := 20, AT := "at-20", atExpires := some 100000 }

/-- A credential with unknown expiry for the C7 witness refresh path. -/
def c7Stale : Token :=
  { c4Token with id := 21, AT := "at-21", atExpires := none }

/-- A store holding both C7 witness credentials. -/
def c7db : Database :=
  { tokens := [c7Fresh, c7Stale]
    stats := fun _ => none
    errorBanThreshold := 3 }

/-- An upstream whose exchange always fails, for the C7 witness. -/
def c7fc : FlowClient :=
  { stToAT := fun _ => none
    getCredits := fun _ => none }

theorem claim_C7_ensure_fresh_secret_witness :
    IsATValid c7db c7fc 0 20 = (true, c7db, false) ∧
    IsATValid c7db c7fc 0 21 = (false, DisableToken c7db 21, true) ∧
    (DisableToken c7db 21).getToken 21 = some { c7Stale with isActive := false } := by
  have h := claim_C7_ensure_fresh_secret
  have h3 := h.2.2 c7db c7fc 0 21 c7Stale rfl (Or.inr (Or.inl rfl)) rfl
  exact ⟨h.1 c7db c7fc 0 20 c7Fresh 100000 rfl (by decide) rfl (by norm_num [hourSeconds]),
    h3.1, h3.2⟩

theorem unban429Updates_id (u : Token) : (unban429Updates u).id = u.id := rfl

theorem unban429Updates_idem (u : Token) :
    unban429Updates (unban429Updates u) = unban429Updates u := rfl

theorem autoUnbanFold_char (now : Int) :
    ∀ (l : List Token) (db : Database),
      ((l.foldl (autoUnbanStep now) db).tokens =
        db.tokens.map (fun u =>
          if l.any (fun t => autoUnbanEligible now t && t.id == u.id) then unban429Updates u
          else u))
      ∧ (∀ j, (l.foldl (autoUnbanStep now) db).stats j =
          (if l.any (fun t => autoUnbanEligible now t && t.id == j) then
            (db.stats j).map (fun s => { s with consecutiveErrorCount := 0 })
          else db.stats j)) := by
  intro l
  induction l with
  | nil =>
    intro db
    constructor
    · simp
    · intro j; simp
  | cons t l ih =>
    intro db
    by_cases he : autoUnbanEligible now t = true
    · have hstep : autoUnbanStep now db t =
          (db.updateTokenWith t.id unban429Updates).resetErrorCount t.id := by
        simp only [autoUnbanStep]
        rw [if_pos he]
      have htok : ((db.updateTokenWith t.id unban429Updates).resetErrorCount t.id).tokens =
          db.tokens.map (fun u => if u.id = t.id then unban429Updates u else u) := rfl
      have hstats : ∀ j,
          ((db.updateTokenWith t.id unban429Updates).resetErrorCount t.id).stats j =
            (if j = t.id then
              (db.stats j).map (fun s => { s with consecutiveErrorCount := 0 })
            else db.stats j) := fun j => rfl
      constructor
      · rw [List.foldl_cons, hstep,
          (ih ((db.updateTokenWith t.id unban429Updates).resetErrorCount t.id)).1,
          htok, List.map_map]
        refine List.map_congr_left ?_
        intro u hu
        simp only [Function.comp]
        by_cases hid : u.id = t.id
        · rw [if_pos hid]
          have hcond :
              (t :: l).any (fun s => autoUnbanEligible now s && s.id == u.id) = true := by
            simp only [List.any_cons, Bool.or_eq_true, Bool.and_eq_true]
            exact Or.inl ⟨he, by simp [hid]⟩
          rw [hcond]
          simp only [unban429Updates_id, if_true]
          by_cases hc : l.any (fun s => autoUnbanEligible now s && s.id == u.id) = true
          · rw [if_pos hc, unban429Updates_idem]
          · rw [if_neg hc]
        · rw [if_neg hid]
          have hfirst : (autoUnbanEligible now t && t.id == u.id) = false := by
            have : (t.id == u.id) = false := by
              simp only [beq_eq_false_iff_ne, ne_eq]
              exact fun hh => hid hh.symm
            simp [this]
          simp only [List.any_cons, hfirst, Bool.false_or]
      · intro j
        rw [List.foldl_cons, hstep,
          (ih ((db.updateTokenWith t.id unban429Updates).resetErrorCount t.id)).2 j,
          hstats j]
        by_cases hj : j = t.id
        · have hcond :
              (t :: l).any (fun s => autoUnbanEligible now s && s.id == j) = true := by
            simp only [List.any_cons, Bool.or_eq_true, Bool.and_eq_true]
            exact Or.inl ⟨he, by simp [hj]⟩
          rw [hcond, if_pos hj]
          simp only [if_true]
          by_cases hc : l.any (fun s => autoUnbanEligible now s && s.id == j) = true
          · rw [if_pos hc, Option.map_map]
            congr 1
          · rw [if_neg hc]
        · have hfirst : (autoUnbanEligible now t && t.id == j) = false := by
            have : (t.id == j) = false := by
              simp only [beq_eq_false_iff_ne, ne_eq]
              exact fun hh => hj hh.symm
            simp [this]
          rw [if_neg hj]
          simp only [List.any_cons, hfirst, Bool.false_or]
    · have hef : autoUnbanEligible now t = false := by
        revert he
        cases autoUnbanEligible now t <;> simp
      have hstep : autoUnbanStep now db t = db := by
        simp only [autoUnbanStep]
        rw [if_neg he]
      constructor
      · rw [List.foldl_cons, hstep]
        simp only [List.any_cons, hef, Bool.false_and, Bool.false_or]
        exact (ih db).1
      · intro j
        rw [List.foldl_cons, hstep]
        simp only [List.any_cons, hef, Bool.false_and, Bool.false_or]
        exact (ih db).2 j

/-- Claim C8: with distinct credential ids, autoUnban rewrites the tokens
table pointwise, reactivating (active := true, ban reason and timestamp
cleared) exactly the inactive 429-banned tokens with a recorded ban at least
12 hours old and no known-passed expiry, leaving every other token unchanged;
it also resets the consecutive-error count exactly for the unbanned ids; a
token banned less than 12 hours ago stays in the table unchanged (inactive). -/
theorem claim_C8_auto_unban :
    ∀ (db : Database) (now : Int),
      ((db.tokens.map Token.id).Nodup →
        (AutoUnban429Tokens db now).tokens =
          db.tokens.map (fun u =>
            if autoUnbanEligible now u then unban429Updates u else u))
      ∧ (∀ j, (AutoUnban429Tokens db now).stats j =
          (if db.tokens.any (fun t => autoUnbanEligible now t && t.id == j) then
            (db.stats j).map (fun s => { s with consecutiveErrorCount := 0 })
          else db.stats j))
      ∧ ((db.tokens.map Token.id).Nodup →
          ∀ u ∈ db.tokens, ∀ b : Int, u.banReason = some "429_rate_limit" →
          u.isActive = false → u.bannedAt = some b → now - b < 12 * hourSeconds →
          u ∈ (AutoUnban429Tokens db now).tokens) := by
  intro db now
  have hchar := autoUnbanFold_char now db.tokens db
  have hmain : (db.tokens.map Token.id).Nodup →
      (AutoUnban429Tokens db now).tokens =
        db.tokens.map (fun u =>
          if autoUnbanEligible now u then unban429Updates u else u) := by
    intro hnodup
    rw [AutoUnban429Tokens, hchar.1]
    refine List.map_congr_left ?_
    intro u hu
    cases helig : autoUnbanEligible now u
    · have hcond : db.tokens.any (fun t => autoUnbanEligible now t && t.id == u.id) = false := by
        rw [List.any_eq_false]
        intro x hx hxc
        simp only [Bool.and_eq_true, beq_iff_eq] at hxc
        have hxu : x = u := List.inj_on_of_nodup_map hnodup hx hu hxc.2
        rw [hxu] at hxc
        rw [hxc.1] at helig
        cases helig
      rw [hcond]
    · have hcond : db.tokens.any (fun t => autoUnbanEligible now t && t.id == u.id) = true := by
        rw [List.any_eq_true]
        exact ⟨u, hu, by simp [helig]⟩
      rw [hcond]
  refine ⟨hmain, fun j => hchar.2 j, ?_⟩
  intro hnodup u hu b hbr hact hb hage
  have hef : autoUnbanEligible now u = false := by
    simp only [autoUnbanEligible, hb]
    simp [show ¬ (12 * hourSeconds ≤ now - b) from by omega]
  rw [hmain hnodup]
  exact List.mem_map.mpr ⟨u, hu, by simp [hef]⟩

/-- A token banned 50000 seconds (≈ 13.9 h) before the witness observation. -/
def c8Banned : Token :=
  { c4Token with
    id := 10
    isActive := false
    banReason := some "429_rate_limit"
    bannedAt := some (-50000)
    atExpires := none }

/-- A token banned 100 seconds before the witness observation. -/
def c8Recent : Token :=
  { c4Token with
    id := 11
    isActive := false
    banReason := some "429_rate_limit"
    bannedAt := some (-100)
    atExpires := none }

/-- The two-credential store scanned by the C8 witness at now = 0. -/
def c8db : Database :=
  { tokens := [c8Banned, c8Recent]
    stats := fun _ => none
    errorBanThreshold := 3 }

theorem claim_C8_auto_unban_witness :
    (AutoUnban429Tokens c8db 0).tokens = [unban429Updates c8Banned, c8Recent] ∧
    c8Recent ∈ (AutoUnban429Tokens c8db 0).tokens := by
  have h := claim_C8_auto_unban c8db 0
  constructor
  · rw [h.1 (by decide)]
    show [if autoUnbanEligible 0 c8Banned then unban429Updates c8Banned else c8Banned,
      if autoUnbanEligible 0 c8Recent then unban429Updates c8Recent else c8Recent] = _
    rw [if_pos (by decide), if_neg (by decide)]
  · exact h.2.2 (by decide) c8Recent (by simp [c8db]) (-100) rfl rfl rfl (by norm_num [hourSeconds])

/-- Go strings.Contains, computed on the underlying character lists. -/
def goContains (s sub : String) : Bool :=
  (List.range (s.data.length + 1)).any (fun i => sub.data.isPrefixOf (s.data.drop i))

/-- The credential-state side effect HandleGeneration applies after the
dispatch returns: a 429-bearing error message bans the credential, any other
error records an error against it, and success records usage and success. -/
inductive CredentialOutcome where
  | banFor429
  | recordErrorOutcome
  | recordUsageAndSuccess
deriving DecidableEq, Repr

/-- The tail of GenerationHandler.HandleGeneration: classify the dispatch
outcome into the credential-state side effect. -/
def classifyGenerationOutcome (genErr : Option String) : CredentialOutcome :=
  match genErr with
  | some msg =>
    if goContains msg "429" then CredentialOutcome.banFor429
    else CredentialOutcome.recordErrorOutcome
  | none => CredentialOutcome.recordUsageAndSuccess

/-- The error message handleImageGeneration returns on slot denial. -/
def imageConcurrencyLimitMsg : String := "Image concurrency limit reached"

/-- The slot-acquisition prefix of handleImageGeneration: on denial it returns
the concurrency error (which HandleGeneration then classifies); on success the
generation proceeds. -/
def handleImageGenerationAcquire (cm : ConcurrencyManager) (tokenID : Int) :
    Option String × ConcurrencyManager :=
  match cm.AcquireImage tokenID with
  | (true, cm') => (none, cm')
  | (false, cm') => (some imageConcurrencyLimitMsg, cm')

/-- models.ModelConfig. -/
structure ModelConfig where
  type : String
  videoType : String
  modelName : String
  modelKey : String
  aspectRatio : String
  supportsImages : Bool
  minImages : Int
  maxImages : Int
deriving DecidableEq, Repr

/-- models.ModelConfigs entry veo_3_1_i2v_s_fast_fl_landscape. -/
def veo31I2vFastFlLandscape : ModelConfig :=
  { type := "video"
    videoType := "i2v"
    modelName := ""
    modelKey := "veo_3_1_i2v_s_fast_fl"
    aspectRatio := "VIDEO_ASPECT_RATIO_LANDSCAPE"
    supportsImages := true
    minImages := 1
    maxImages := 2 }

/-- The I2V image-count validation error message. -/
def i2vRequiresMsg (minI maxI : Int) (got : Nat) : String :=
  "I2V model requires " ++ toString minI ++ "-" ++ toString maxI ++ " images, got " ++
    toString got

/-- handleVideoGeneration's image-count validation: a T2V model drops supplied
images with a warning; an I2V model outside its declared bounds returns the
validation error (which HandleGeneration then classifies). -/
def validateVideoImages (cfg : ModelConfig) (imageCount : Nat) : Option String × Nat :=
  if cfg.videoType = "t2v" ∧ 0 < imageCount then (none, 0)
  else if cfg.videoType = "i2v" ∧
      ((imageCount : Int) < cfg.minImages ∨ cfg.maxImages < (imageCount : Int)) then
    (some (i2vRequiresMsg cfg.minImages cfg.maxImages imageCount), imageCount)
  else (none, imageCount)

/-- A slot table whose credential 40 has image limit 0 (always denied). -/
def c2cm : ConcurrencyManager := NewConcurrencyManager.UpdateTokenLimits 40 0 0

/-- Claim C2: the code penalizes the credential for capacity and validation
outcomes.  A denied image slot yields the concurrency error message, an
out-of-bounds I2V image count yields the validation error message, and
HandleGeneration classifies both (no "429" substring) as recordError — a
credential-statistics mutation (shown live on a concrete store), contradicting
the claimed absence of credential-state side effects. -/
theorem claim_C2_capacity_and_validation_penalized :
    (handleImageGenerationAcquire c2cm 40).1 = some imageConcurrencyLimitMsg ∧
    classifyGenerationOutcome (handleImageGenerationAcquire c2cm 40).1 =
      CredentialOutcome.recordErrorOutcome ∧
    (validateVideoImages veo31I2vFastFlLandscape 0).1 = some (i2vRequiresMsg 1 2 0) ∧
    classifyGenerationOutcome (validateVideoImages veo31I2vFastFlLandscape 0).1 =
      CredentialOutcome.recordErrorOutcome ∧
    (validateVideoImages veo31I2vFastFlLandscape 3).1 = some (i2vRequiresMsg 1 2 3) ∧
    ((RecordError c6db 30 "2026-01-01" 0).getTokenStats 30).consecutiveErrorCount = 1 ∧
    (c6db.getTokenStats 30).consecutiveErrorCount = 0 := by
  refine ⟨rfl, by decide, by decide, by decide, by decide, ?_, rfl⟩
  rfl

end Flow2API
